import Mathlib

set_option maxRecDepth 8000

/-!
Verification of the AYCD desktop storage layer (document/project stores).

The Rust sources are embedded shallowly: strings are `List Char` (the
delimiters the code slices at are all ASCII, so byte offsets in the Rust
code and character offsets here coincide on every slice the code takes),
filesystem state is an explicit record of files and directories, and every
external input (timestamps, uuids, directory enumeration, file metadata)
is a parameter.  All definitions are executable and all recursion is
structural, so concrete runs evaluate by `decide`.
-/

/-- Rust `&str` / `String`, modelled as a list of characters. -/
abbrev Str := List Char

/-- Code points of the Unicode White_Space class, which Rust's
`char::is_whitespace` (used by `str::trim` and `split_whitespace`) tests. -/
def wsVals : List Nat :=
  [9, 10, 11, 12, 13, 32, 133, 160, 5760,
   8192, 8193, 8194, 8195, 8196, 8197, 8198, 8199, 8200, 8201, 8202,
   8232, 8233, 8239, 8287, 12288]

/-- Rust `char::is_whitespace`. -/
def isWs (c : Char) : Bool := decide (c.toNat ∈ wsVals)

/-- Rust `str::trim_start`. -/
def rustTrimStart (s : Str) : Str := s.dropWhile isWs

/-- Rust `str::trim_end`. -/
def rustTrimEnd (s : Str) : Str := (s.reverse.dropWhile isWs).reverse

/-- Rust `str::trim`. -/
def rustTrim (s : Str) : Str := rustTrimEnd (rustTrimStart s)

/-- Remove one trailing carriage return, as `str::lines` does from each
newline-terminated line. -/
def stripCR : Str → Str
  | [] => []
  | [c] => if c = '\r' then [] else [c]
  | c :: c' :: rest => c :: stripCR (c' :: rest)

/-- Helper for `rustLines`: `acc` is the current (unterminated) line. -/
def rustLinesAux : Str → Str → List Str
  | acc, [] => if acc = [] then [] else [acc]
  | acc, c :: rest =>
    if c = '\n' then stripCR acc :: rustLinesAux [] rest
    else rustLinesAux (acc ++ [c]) rest

/-- Rust `str::lines`: split at `'\n'`, strip a `'\r'` before each
terminator, final line unterminated and kept verbatim, no empty final
line for a trailing newline. -/
def rustLines (s : Str) : List Str := rustLinesAux [] s

/-- Rust `str::find` with a string pattern: index of the first occurrence
of `needle` as a contiguous subsequence. -/
def findSub (needle : Str) : Str → Option Nat
  | [] => if needle.isPrefixOf ([] : Str) then some 0 else none
  | c :: rest =>
    if needle.isPrefixOf (c :: rest) then some 0
    else (findSub needle rest).map (· + 1)

/-- Rust `str::split_once`: split around the first occurrence of `sep`. -/
def rustSplitOnce (sep : Char) : Str → Option (Str × Str)
  | [] => none
  | c :: rest =>
    if c = sep then some ([], rest)
    else (rustSplitOnce sep rest).map (fun p => (c :: p.1, p.2))

/-- Rust `line.trim_start_matches("# ")`: repeatedly strip a leading
`"# "`. -/
def trimStartMatchesHashSpace : Str → Str
  | '#' :: ' ' :: rest => trimStartMatchesHashSpace rest
  | s => s

/-- Character for a decimal digit value. -/
def digitChar (d : Nat) : Char := Char.ofNat (48 + d)

/-- Decimal rendering of a positive natural, most significant digit
first; `fuel ≥ n` suffices. -/
def natToStrAux : Nat → Nat → Str
  | 0, _ => []
  | _ + 1, 0 => []
  | fuel + 1, n + 1 => natToStrAux fuel ((n + 1) / 10) ++ [digitChar ((n + 1) % 10)]

/-- Decimal rendering of a natural number. -/
def natToStr (n : Nat) : Str := if n = 0 then [digitChar 0] else natToStrAux n n

/-- Rust `i64` `Display` rendering. -/
def intToStr (i : Int) : Str :=
  if i < 0 then '-' :: natToStr i.natAbs else natToStr i.toNat

/-- ASCII decimal digit test (what `i64::from_str` accepts per digit). -/
def isDigitChar (c : Char) : Bool := decide (48 ≤ c.toNat) && decide (c.toNat ≤ 57)

/-- Accumulating decimal parse; `none` on any non-digit. -/
def parseDigitsAux : Nat → Str → Option Nat
  | acc, [] => some acc
  | acc, c :: rest =>
    if isDigitChar c then parseDigitsAux (acc * 10 + (c.toNat - 48)) rest else none

/-- Parse a nonempty all-digit string as a natural number. -/
def parseDigits (s : Str) : Option Nat := if s = [] then none else parseDigitsAux 0 s

/-- Largest `i64` value. -/
def i64MaxNat : Nat := 9223372036854775807

/-- Range check for the non-negative result of `i64::from_str`. -/
def i64OfPos (n : Nat) : Option Int := if n ≤ i64MaxNat then some (n : Int) else none

/-- Range check for the negated result of `i64::from_str`. -/
def i64OfNeg (n : Nat) : Option Int :=
  if n ≤ i64MaxNat + 1 then some (-(n : Int)) else none

/-- Rust `str::parse::<i64>()`: optional single sign, one or more ASCII
digits, result within the `i64` range; anything else fails. -/
def parseI64 : Str → Option Int
  | [] => none
  | c :: rest =>
    if c = '+' then (parseDigits rest).bind i64OfPos
    else if c = '-' then (parseDigits rest).bind i64OfNeg
    else (parseDigits (c :: rest)).bind i64OfPos

/-- A frontmatter value: `serde_json` number (always `i64` here) or
string. -/
inductive FmValue where
  | int : Int → FmValue
  | str : Str → FmValue
  deriving DecidableEq

/-- The frontmatter map (`serde_json::Map`), as an association list with
insert-overwrites semantics. -/
abbrev FmMap := List (Str × FmValue)

/-- `serde_json::Map::insert`: replace any existing binding of `k`. -/
def insertFm (m : FmMap) (k : Str) (v : FmValue) : FmMap :=
  m.filter (fun e => decide (¬ (e.1 = k))) ++ [(k, v)]

/-- `serde_json::Map::get`. -/
def lookupFm (m : FmMap) (k : Str) : Option FmValue :=
  (m.find? (fun e => decide (e.1 = k))).map Prod.snd

/-- The value stored for a frontmatter line: number when the trimmed text
parses as `i64`, else the trimmed string. -/
def intOrStr (v : Str) : FmValue :=
  match parseI64 v with
  | some n => .int n
  | none => .str v

/-- One iteration of the frontmatter line loop in `parse_frontmatter`:
a line with a `:` inserts `trim(key) ↦ intOrStr (trim value)`, a line
without `:` is ignored. -/
def processFmLine (m : FmMap) (line : Str) : FmMap :=
  match rustSplitOnce ':' line with
  | some (k, v) => insertFm m (rustTrim k) (intOrStr (rustTrim v))
  | none => m

/-- The opening delimiter `"---\n"` that `parse_frontmatter` requires at
the very start. -/
def fmOpen : Str := ['-', '-', '-', '\n']

/-- The closing delimiter `"\n---\n"` that `parse_frontmatter` searches
for after offset 4. -/
def fmClose : Str := ['\n', '-', '-', '-', '\n']

/-- `document_service::parse_frontmatter`.  Mirrors the Rust slicing:
`content[4..]`, `content[4..end_pos+4]`, `content[end_pos+9..]`. -/
def parseFrontmatter (content : Str) : FmMap × Str :=
  if fmOpen.isPrefixOf content then
    match findSub fmClose (content.drop 4) with
    | some endPos =>
      ((rustLines ((content.drop 4).take endPos)).foldl processFmLine [],
       content.drop (endPos + 9))
    | none => ([], content)
  else ([], content)

/-- `serde_json::Value::as_str` after a map `get`. -/
def fmGetStr (m : FmMap) (k : Str) : Option Str :=
  match lookupFm m k with
  | some (.str s) => some s
  | _ => none

/-- `serde_json::Value::as_i64` after a map `get`. -/
def fmGetI64 (m : FmMap) (k : Str) : Option Int :=
  match lookupFm m k with
  | some (.int n) => some n
  | _ => none

/-- Helper for `countWords`: the flag tells whether we are inside a
word. -/
def countWordsAux : Bool → Str → Nat
  | _, [] => 0
  | inWord, c :: rest =>
    if isWs c then countWordsAux false rest
    else (if inWord then 0 else 1) + countWordsAux true rest

/-- `document_service::count_words`: `split_whitespace().count()`. -/
def countWords (s : Str) : Nat := countWordsAux false s

/-- A filesystem path, as a list of components. -/
abbrev FsPath := List Str

/-- The document record exactly as `document_service` constructs it. -/
structure Document where
  id : Str
  projectId : Str
  path : FsPath
  title : Str
  content : Str
  wordCount : Nat
  createdAt : Int
  modifiedAt : Int
  metadata : Option FmValue
  deriving DecidableEq

/-- The characters of `"id"`. -/
def chId : Str := ['i', 'd']

/-- The characters of `"title"`. -/
def chTitle : Str := ['t', 'i', 't', 'l', 'e']

/-- The characters of `"created"`. -/
def chCreated : Str := ['c', 'r', 'e', 'a', 't', 'e', 'd']

/-- The characters of `"Untitled"`. -/
def chUntitled : Str := ['U', 'n', 't', 'i', 't', 'l', 'e', 'd']

/-- The characters of the heading marker `"# "`. -/
def headingMark : Str := ['#', ' ']

/-- The title fallback chain of `read_document`: frontmatter `title` as a
string, else first body line starting with `"# "` (marker stripped,
trimmed), else the file stem, else `"Untitled"`. -/
def deriveTitle (fm : FmMap) (body : Str) (fileStem : Option Str) : Str :=
  match fmGetStr fm chTitle with
  | some t => t
  | none =>
    match (rustLines body).find? (fun l => headingMark.isPrefixOf l) with
    | some l => rustTrim (trimStartMatchesHashSpace l)
    | none => fileStem.getD chUntitled

/-- `document_service::read_document` on an existing file, with the
externals (file content, `file_stem()`, filesystem created/modified
times) passed in. -/
def readDocument (docPath : FsPath) (content : Str) (fileStem : Option Str)
    (fsCreated : Option Int) (fsModified : Option Int) : Document :=
  let fm := (parseFrontmatter content).1
  let body := (parseFrontmatter content).2
  { id := (fmGetStr fm chId).getD []
    projectId := []
    path := docPath
    title := deriveTitle fm body fileStem
    content := content
    wordCount := countWords body
    createdAt := (fmGetI64 fm chCreated).getD (fsCreated.getD 0)
    modifiedAt := fsModified.getD 0
    metadata := none }

/-- The nine characters `sanitize_filename` replaces. -/
def invalidFileChars : List Char := ['/', '\\', ':', '*', '?', '"', '<', '>', '|']

/-- Per-character replacement of `sanitize_filename`. -/
def sanitizeChar (c : Char) : Char := if c ∈ invalidFileChars then '-' else c

/-- `document_service::sanitize_filename`: replace the nine invalid
characters by `'-'`, then trim. -/
def sanitizeFilename (name : Str) : Str := rustTrim (name.map sanitizeChar)

/-- The characters of `"id: "`. -/
def litIdColon : Str := ['i', 'd', ':', ' ']

/-- The characters of `"title: "`. -/
def litTitleColon : Str := ['t', 'i', 't', 'l', 'e', ':', ' ']

/-- The characters of `"created: "`. -/
def litCreatedColon : Str := ['c', 'r', 'e', 'a', 't', 'e', 'd', ':', ' ']

/-- The characters of the `".md"` extension. -/
def mdExt : Str := ['.', 'm', 'd']

/-- The file text `create_document` writes:
`"---\nid: {id}\ntitle: {title}\ncreated: {now}\n---\n\n# {title}\n\n"`. -/
def createFileContent (docId title : Str) (now : Int) : Str :=
  fmOpen ++ litIdColon ++ docId ++ ['\n'] ++ litTitleColon ++ title ++ ['\n'] ++
    litCreatedColon ++ intToStr now ++ fmClose ++ ['\n'] ++ headingMark ++ title ++
    ['\n', '\n']

/-- Filesystem state: files (path to content) and a set of directories. -/
structure Fs where
  files : List (FsPath × Str)
  dirs : List FsPath
  deriving DecidableEq

/-- Paths of all regular files. -/
def fsFilePaths (fs : Fs) : List FsPath := fs.files.map Prod.fst

/-- Rust `Path::exists`: a file or a directory at that path. -/
def pathExists (fs : Fs) (p : FsPath) : Bool :=
  decide (p ∈ fsFilePaths fs) || decide (p ∈ fs.dirs)

/-- All nonempty prefixes of a path (the components `create_dir_all`
ensures). -/
def prefixesOf (p : FsPath) : List FsPath :=
  (List.range p.length).map (fun i => p.take (i + 1))

/-- `file_service::ensure_dir`: no-op when the path exists, else
`create_dir_all`. -/
def ensureDir (fs : Fs) (p : FsPath) : Fs :=
  if pathExists fs p then fs else { fs with dirs := fs.dirs ++ prefixesOf p }

/-- Net effect of `file_service::write_file` (write temp + rename): the
file at `p` now holds `c`. -/
def writeFile (fs : Fs) (p : FsPath) (c : Str) : Fs :=
  { fs with files := (p, c) :: fs.files.filter (fun e => decide (¬ (e.1 = p))) }

/-- Content of the file at `p`, if any. -/
def lookupFile (fs : Fs) (p : FsPath) : Option Str :=
  (fs.files.find? (fun e => decide (e.1 = p))).map Prod.snd

/-- Errors of the document store relevant to the claims. -/
inductive DocError where
  | alreadyExists
  | notFound
  deriving DecidableEq

/-- The directory `create_document` targets:
`project_path/category[/subcategory]`. -/
def dirPathOf (projectPath : FsPath) (category : Str) (subcategory : Option Str) : FsPath :=
  (projectPath ++ [category]) ++ (match subcategory with | some s => [s] | none => [])

/-- The file name `create_document` uses: sanitized title plus `".md"`. -/
def docFileName (title : Str) : Str := sanitizeFilename title ++ mdExt

/-- The full target path of `create_document`. -/
def docPathOf (projectPath : FsPath) (title category : Str) (subcategory : Option Str) : FsPath :=
  dirPathOf projectPath category subcategory ++ [docFileName title]

/-- The in-memory record `create_document` returns: empty content, zero
word count, both timestamps `now`. -/
def createdRecord (docId title : Str) (p : FsPath) (now : Int) : Document :=
  { id := docId
    projectId := []
    path := p
    title := title
    content := []
    wordCount := 0
    createdAt := now
    modifiedAt := now
    metadata := none }

/-- `document_service::create_document`, with the generated uuid and the
current timestamp passed in.  Returns the call's result together with the
filesystem state after the call. -/
def createDocument (fs : Fs) (projectPath : FsPath) (title category : Str)
    (subcategory : Option Str) (docId : Str) (now : Int) :
    Except DocError Document × Fs :=
  let dirPath := dirPathOf projectPath category subcategory
  let fs1 := ensureDir fs dirPath
  let docPath := docPathOf projectPath title category subcategory
  if pathExists fs1 docPath then (.error .alreadyExists, fs1)
  else (.ok (createdRecord docId title docPath now),
        writeFile fs1 docPath (createFileContent docId title now))

/-- Well-formed filesystem: every nonempty proper prefix of an existing
path is a directory (what any real filesystem guarantees). -/
def FsWf (fs : Fs) : Prop :=
  ∀ p ∈ fsFilePaths fs ++ fs.dirs, ∀ k, k < p.length → 0 < k → p.take k ∈ fs.dirs

/-- Insert `x` into `l` before the first element `y` with `le x y`. -/
def insertDesc {α : Type} (le : α → α → Bool) (x : α) : List α → List α
  | [] => [x]
  | y :: ys => if le x y then x :: y :: ys else y :: insertDesc le x ys

/-- A sort (model of Rust's stable `sort_by`; the spec guarantees no tie
order, so any correct sort is a faithful model). -/
def sortByLe {α : Type} (le : α → α → Bool) (l : List α) : List α :=
  l.foldr (insertDesc le) []

/-- The comparator `|a, b| b.modified_at.cmp(&a.modified_at)` as a
`le` test: `a` may precede `b` iff `b.modified_at ≤ a.modified_at`. -/
def docLe (a b : Document) : Bool := decide (b.modifiedAt ≤ a.modifiedAt)

/-- The sort step of `list_documents_in_dir` / `list_all_documents`. -/
def sortDocs (docs : List Document) : List Document := sortByLe docLe docs

/-- The project record as `project_service` constructs it. -/
structure Project where
  id : Str
  name : Str
  path : FsPath
  createdAt : Int
  modifiedAt : Int
  deriving DecidableEq

/-- The comparator of `list_projects`. -/
def projLe (a b : Project) : Bool := decide (b.modifiedAt ≤ a.modifiedAt)

/-- The sort step of `list_projects`. -/
def sortProjects (ps : List Project) : List Project := sortByLe projLe ps

/-- An opaque I/O error (`read_dir` or entry failures). -/
structure IoErr where
  msg : Str
  deriving DecidableEq

/-- `document_service::list_documents_in_dir`.  The directory enumeration
is external: each entry is `some doc` when it is a regular `.md` file that
`read_document` read successfully, `none` when it is skipped (wrong
extension, not a file, or a warn-and-skip read failure). -/
def listDocumentsInDir (dirExists : Bool)
    (readDir : Except IoErr (List (Option Document))) :
    Except IoErr (List Document) :=
  if dirExists then readDir.map (fun es => sortDocs (es.filterMap (fun x => x)))
  else .ok []

/-- `document_service::list_all_documents`: the recursive walk of the
WORLD and NARRATIVE trees is external (same per-entry convention), the
sort is the code's. -/
def listAllDocuments (collected : Except IoErr (List (Option Document))) :
    Except IoErr (List Document) :=
  collected.map (fun es => sortDocs (es.filterMap (fun x => x)))

/-- `project_service::list_projects`: each enumerated subdirectory yields
`some project` when `open_project` succeeds, `none` when silently
skipped. -/
def listProjects (rootExists : Bool)
    (readDir : Except IoErr (List (Option Project))) :
    Except IoErr (List Project) :=
  if rootExists then readDir.map (fun es => sortProjects (es.filterMap (fun x => x)))
  else .ok []

/-- Equality of `Except` results is decidable (used to evaluate concrete
runs). -/
instance exceptDecEq {ε α : Type} [DecidableEq ε] [DecidableEq α] :
    DecidableEq (Except ε α) := fun a b =>
  match a, b with
  | .ok x, .ok y => decidable_of_iff (x = y) (by simp)
  | .error x, .error y => decidable_of_iff (x = y) (by simp)
  | .ok _, .error _ => isFalse (by simp)
  | .error _, .ok _ => isFalse (by simp)

/-! ### Basic string lemmas -/

theorem isPrefixOf_exists_append : ∀ (a b : Str), a.isPrefixOf b = true ↔ ∃ t, a ++ t = b
  | [], b => by simp [List.isPrefixOf]
  | a :: as, [] => by simp [List.isPrefixOf]
  | a :: as, b :: bs => by
    simp only [List.isPrefixOf, Bool.and_eq_true, beq_iff_eq]
    constructor
    · rintro ⟨rfl, h⟩
      obtain ⟨t, rfl⟩ := (isPrefixOf_exists_append as bs).mp h
      exact ⟨t, rfl⟩
    · rintro ⟨t, ht⟩
      obtain ⟨rfl, rfl⟩ : a = b ∧ as ++ t = bs := by
        constructor <;> [exact (List.cons.injEq .. ▸ ht).1; exact (List.cons.injEq .. ▸ ht).2]
      exact ⟨rfl, (isPrefixOf_exists_append as (as ++ t)).mpr ⟨t, rfl⟩⟩

theorem isPrefixOf_append_self (a b : Str) : a.isPrefixOf (a ++ b) = true :=
  (isPrefixOf_exists_append a (a ++ b)).mpr ⟨b, rfl⟩

theorem findSub_some : ∀ (needle h : Str) (i : Nat), findSub needle h = some i →
    i ≤ h.length ∧ needle.isPrefixOf (h.drop i) = true
  | needle, [], i => by
    unfold findSub
    by_cases hp : needle.isPrefixOf ([] : Str) <;> simp [hp]
    rintro rfl
    simpa using hp
  | needle, c :: rest, i => by
    unfold findSub
    by_cases hp : needle.isPrefixOf (c :: rest)
    · simp [hp]
      rintro rfl
      simpa using hp
    · simp [hp]
      rintro j hj rfl
      obtain ⟨h1, h2⟩ := findSub_some needle rest j hj
      exact ⟨by simpa using Nat.succ_le_succ h1, by simpa using h2⟩

theorem findSub_cons_neg (needle : Str) (c : Char) (rest : Str)
    (h : needle.isPrefixOf (c :: rest) = false) :
    findSub needle (c :: rest) = (findSub needle rest).map (· + 1) := by
  have heq : findSub needle (c :: rest) =
      if needle.isPrefixOf (c :: rest) then some 0
      else (findSub needle rest).map (· + 1) := rfl
  rw [heq, if_neg (by simp [h])]

theorem findSub_pos (needle h : Str) (hp : needle.isPrefixOf h = true) :
    findSub needle h = some 0 := by
  cases h with
  | nil => unfold findSub; simp [hp]
  | cons c rest => unfold findSub; simp [hp]

theorem findSub_skip (c0 : Char) (n' L rest : Str) (h : ∀ c ∈ L, ¬ (c = c0)) :
    findSub (c0 :: n') (L ++ rest) = (findSub (c0 :: n') rest).map (· + L.length) := by
  induction L with
  | nil =>
    cases hf : findSub (c0 :: n') rest <;> simp [hf]
  | cons c L ih =>
    have hc : ¬ (c = c0) := h c (List.mem_cons_self c L)
    have hpre : (c0 :: n').isPrefixOf (c :: (L ++ rest)) = false := by
      simp only [List.isPrefixOf, Bool.and_eq_false_iff]
      left
      simp
      intro hcc
      exact hc hcc.symm
    rw [List.cons_append, findSub_cons_neg _ _ _ hpre,
        ih (fun c hc => h c (List.mem_cons_of_mem _ hc))]
    cases hf : findSub (c0 :: n') rest <;> simp [hf] <;> omega

theorem stripCR_of_not_mem : ∀ (l : Str), '\r' ∉ l → stripCR l = l
  | [], _ => rfl
  | [c], h => by
    have : ¬ (c = '\r') := by
      intro hc
      exact h (by simp [hc])
    simp [stripCR, this]
  | c :: c' :: t, h => by
    simp only [stripCR]
    rw [stripCR_of_not_mem (c' :: t) (fun hm => h (List.mem_cons_of_mem _ hm))]

theorem rustLinesAux_cons_other (acc : Str) (c : Char) (rest : Str) (hc : ¬ (c = '\n')) :
    rustLinesAux acc (c :: rest) = rustLinesAux (acc ++ [c]) rest := by
  have heq : rustLinesAux acc (c :: rest) =
      if c = '\n' then stripCR acc :: rustLinesAux [] rest
      else rustLinesAux (acc ++ [c]) rest := rfl
  rw [heq, if_neg hc]

theorem rustLinesAux_newline : ∀ (L : Str), '\n' ∉ L → ∀ (acc rest : Str),
    rustLinesAux acc (L ++ '\n' :: rest) = stripCR (acc ++ L) :: rustLinesAux [] rest
  | [], _, acc, rest => by simp [rustLinesAux]
  | c :: L, hL, acc, rest => by
    have hc : ¬ (c = '\n') := by
      intro hc
      exact hL (by simp [hc])
    have hL' : '\n' ∉ L := fun hm => hL (List.mem_cons_of_mem _ hm)
    rw [List.cons_append, rustLinesAux_cons_other _ _ _ hc,
      rustLinesAux_newline L hL' (acc ++ [c]) rest, List.append_assoc]
    simp

theorem rustLinesAux_last : ∀ (L : Str), '\n' ∉ L → ∀ (acc : Str),
    rustLinesAux acc L = if acc ++ L = [] then [] else [acc ++ L]
  | [], _, acc => by simp [rustLinesAux]
  | c :: L, hL, acc => by
    have hc : ¬ (c = '\n') := by
      intro hc
      exact hL (by simp [hc])
    have hL' : '\n' ∉ L := fun hm => hL (List.mem_cons_of_mem _ hm)
    rw [rustLinesAux_cons_other _ _ _ hc, rustLinesAux_last L hL' (acc ++ [c])]
    have h1 : ¬ ((acc ++ [c]) ++ L = []) := by simp
    have h2 : ¬ (acc ++ c :: L = []) := by simp
    rw [if_neg h1, if_neg h2, List.append_assoc]
    simp

theorem rustTrim_cons_ws (c : Char) (l : Str) (h : isWs c = true) :
    rustTrim (c :: l) = rustTrim l := by
  simp [rustTrim, rustTrimStart, List.dropWhile_cons, h]

theorem rustTrim_no_ws (l : Str) (h : ∀ c ∈ l, isWs c = false) : rustTrim l = l := by
  have hs : rustTrimStart l = l := by
    unfold rustTrimStart
    cases l with
    | nil => rfl
    | cons c t => rw [List.dropWhile_cons, if_neg (by simp [h c (List.mem_cons_self c t)])]
  have he : rustTrimEnd l = l := by
    unfold rustTrimEnd
    cases hr : l.reverse with
    | nil =>
      have hl := List.reverse_eq_nil_iff.mp hr
      subst hl
      rfl
    | cons c t =>
      have hcl : c ∈ l := by
        have hm : c ∈ l.reverse := by
          rw [hr]
          exact List.mem_cons_self c t
        simpa using hm
      rw [List.dropWhile_cons, if_neg (by simp [h c hcl]), ← hr, List.reverse_reverse]
  rw [rustTrim, hs, he]

theorem rustSplitOnce_of_mem (sep : Char) : ∀ (l : Str), sep ∈ l →
    rustSplitOnce sep l =
      some (l.takeWhile (fun c => decide (¬ (c = sep))),
            l.drop ((l.takeWhile (fun c => decide (¬ (c = sep)))).length + 1))
  | [], h => absurd h (List.not_mem_nil sep)
  | c :: t, h => by
    by_cases hc : c = sep
    · subst hc
      simp [rustSplitOnce, List.takeWhile_cons]
    · have hm : sep ∈ t := by
        rcases List.mem_cons.mp h with h1 | h1
        · exact absurd h1.symm hc
        · exact h1
      simp only [rustSplitOnce, if_neg hc, rustSplitOnce_of_mem sep t hm, Option.map_some,
        List.takeWhile_cons, decide_not]
      simp [hc]

theorem rustSplitOnce_of_not_mem (sep : Char) : ∀ (l : Str), sep ∉ l →
    rustSplitOnce sep l = none
  | [], _ => rfl
  | c :: t, h => by
    have hc : ¬ (c = sep) := by
      intro hc
      exact h (by simp [hc])
    simp only [rustSplitOnce, if_neg hc,
      rustSplitOnce_of_not_mem sep t (fun hm => h (List.mem_cons_of_mem _ hm))]
    rfl

/-! ### Decimal rendering and parsing lemmas -/

theorem digitChar_toNat (d : Nat) (h : d < 10) : (digitChar d).toNat = 48 + d := by
  interval_cases d <;> decide

theorem isDigitChar_digitChar (d : Nat) (h : d < 10) : isDigitChar (digitChar d) = true := by
  interval_cases d <;> decide

theorem natToStrAux_digits : ∀ (fuel n : Nat) (c : Char), c ∈ natToStrAux fuel n →
    48 ≤ c.toNat ∧ c.toNat ≤ 57
  | 0, _, c, h => absurd h (List.not_mem_nil c)
  | _ + 1, 0, c, h => absurd h (List.not_mem_nil c)
  | fuel + 1, n + 1, c, h => by
    rw [natToStrAux] at h
    rcases List.mem_append.mp h with h1 | h1
    · exact natToStrAux_digits fuel ((n + 1) / 10) c h1
    · have hc : c = digitChar ((n + 1) % 10) := by simpa using h1
      have hm : (n + 1) % 10 < 10 := Nat.mod_lt _ (by omega)
      rw [hc, digitChar_toNat _ hm]
      omega

theorem natToStr_digits (n : Nat) (c : Char) (h : c ∈ natToStr n) :
    48 ≤ c.toNat ∧ c.toNat ≤ 57 := by
  unfold natToStr at h
  by_cases hn : n = 0
  · rw [if_pos hn] at h
    have hc : c = digitChar 0 := by simpa using h
    rw [hc]
    decide
  · rw [if_neg hn] at h
    exact natToStrAux_digits n n c h

theorem intToStr_chars (i : Int) (c : Char) (h : c ∈ intToStr i) :
    c = '-' ∨ (48 ≤ c.toNat ∧ c.toNat ≤ 57) := by
  unfold intToStr at h
  by_cases hi : i < 0
  · rw [if_pos hi] at h
    rcases List.mem_cons.mp h with h1 | h1
    · exact Or.inl h1
    · exact Or.inr (natToStr_digits _ _ h1)
  · rw [if_neg hi] at h
    exact Or.inr (natToStr_digits _ _ h)

theorem digit_not_ws (c : Char) (h1 : 48 ≤ c.toNat) (h2 : c.toNat ≤ 57) :
    isWs c = false := by
  simp only [isWs, wsVals, decide_eq_false_iff_not]
  intro hm
  simp only [List.mem_cons, List.not_mem_nil, or_false] at hm
  omega

theorem intToStr_no_ws (i : Int) (c : Char) (h : c ∈ intToStr i) : isWs c = false := by
  rcases intToStr_chars i c h with h1 | ⟨h1, h2⟩
  · rw [h1]
    decide
  · exact digit_not_ws c h1 h2

theorem intToStr_no_nl (i : Int) : '\n' ∉ intToStr i := by
  intro h
  rcases intToStr_chars i '\n' h with h1 | ⟨h1, _⟩
  · exact absurd h1 (by decide)
  · exact absurd h1 (by decide)

theorem intToStr_no_cr (i : Int) : '\r' ∉ intToStr i := by
  intro h
  rcases intToStr_chars i '\r' h with h1 | ⟨h1, _⟩
  · exact absurd h1 (by decide)
  · exact absurd h1 (by decide)

theorem parseDigitsAux_natToStrAux : ∀ (fuel n acc : Nat) (rest : Str), n ≤ fuel →
    parseDigitsAux acc (natToStrAux fuel n ++ rest) =
    parseDigitsAux (acc * 10 ^ (natToStrAux fuel n).length + n) rest
  | 0, n, acc, rest, h => by
    have hn : n = 0 := by omega
    subst hn
    simp [natToStrAux]
  | fuel + 1, 0, acc, rest, _ => by simp [natToStrAux]
  | fuel + 1, n + 1, acc, rest, h => by
    have hdiv : (n + 1) / 10 ≤ fuel := by omega
    have hm : (n + 1) % 10 < 10 := Nat.mod_lt _ (by omega)
    rw [natToStrAux, List.append_assoc,
      parseDigitsAux_natToStrAux fuel ((n + 1) / 10) acc _ hdiv]
    have hstep : parseDigitsAux (acc * 10 ^ (natToStrAux fuel ((n + 1) / 10)).length + (n + 1) / 10)
        ([digitChar ((n + 1) % 10)] ++ rest) =
        parseDigitsAux ((acc * 10 ^ (natToStrAux fuel ((n + 1) / 10)).length + (n + 1) / 10) * 10
          + (n + 1) % 10) rest := by
      have heq : parseDigitsAux (acc * 10 ^ (natToStrAux fuel ((n + 1) / 10)).length + (n + 1) / 10)
          (digitChar ((n + 1) % 10) :: rest) =
          if isDigitChar (digitChar ((n + 1) % 10)) then
            parseDigitsAux ((acc * 10 ^ (natToStrAux fuel ((n + 1) / 10)).length + (n + 1) / 10) * 10
              + ((digitChar ((n + 1) % 10)).toNat - 48)) rest
          else none := rfl
      rw [List.singleton_append, heq, if_pos (isDigitChar_digitChar _ hm), digitChar_toNat _ hm]
      congr 2
      omega
    rw [hstep]
    congr 1
    have hdm : (n + 1) / 10 * 10 + (n + 1) % 10 = n + 1 := by omega
    have hlen : (natToStrAux fuel ((n + 1) / 10) ++ [digitChar ((n + 1) % 10)]).length =
        (natToStrAux fuel ((n + 1) / 10)).length + 1 := by simp
    rw [hlen, pow_succ]
    set P := 10 ^ (natToStrAux fuel ((n + 1) / 10)).length with hP
    calc (acc * P + (n + 1) / 10) * 10 + (n + 1) % 10
        = acc * (P * 10) + ((n + 1) / 10 * 10 + (n + 1) % 10) := by ring
      _ = acc * (P * 10) + (n + 1) := by rw [hdm]

theorem natToStrAux_ne_nil (fuel n : Nat) (h1 : 1 ≤ n) (hf : n ≤ fuel) :
    natToStrAux fuel n ≠ [] := by
  cases fuel with
  | zero => omega
  | succ fuel =>
    cases n with
    | zero => omega
    | succ n =>
      rw [natToStrAux]
      simp

theorem natToStr_ne_nil (n : Nat) : natToStr n ≠ [] := by
  unfold natToStr
  by_cases hn : n = 0
  · simp [hn]
  · rw [if_neg hn]
    exact natToStrAux_ne_nil n n (by omega) le_rfl

theorem parseDigits_natToStr (n : Nat) : parseDigits (natToStr n) = some n := by
  by_cases hn : n = 0
  · subst hn
    decide
  · unfold parseDigits
    rw [if_neg (natToStr_ne_nil n)]
    unfold natToStr
    rw [if_neg hn]
    have h := parseDigitsAux_natToStrAux n n 0 [] le_rfl
    rw [List.append_nil] at h
    rw [h]
    simp [parseDigitsAux]

theorem parseI64_intToStr (i : Int) (h1 : -(2 ^ 63) ≤ i) (h2 : i < 2 ^ 63) :
    parseI64 (intToStr i) = some i := by
  by_cases hi : i < 0
  · have hrw : intToStr i = '-' :: natToStr i.natAbs := by rw [intToStr, if_pos hi]
    rw [hrw]
    have heq : parseI64 ('-' :: natToStr i.natAbs) =
        if '-' = '+' then (parseDigits (natToStr i.natAbs)).bind i64OfPos
        else if '-' = '-' then (parseDigits (natToStr i.natAbs)).bind i64OfNeg
        else (parseDigits ('-' :: natToStr i.natAbs)).bind i64OfPos := rfl
    rw [heq, if_neg (by decide), if_pos rfl, parseDigits_natToStr]
    have hb : i.natAbs ≤ i64MaxNat + 1 := by
      simp only [i64MaxNat]
      omega
    have hval : i64OfNeg i.natAbs = some (-(i.natAbs : Int)) := by
      rw [i64OfNeg, if_pos hb]
    rw [Option.some_bind, hval]
    simp only [Option.some.injEq]
    omega
  · have hrw : intToStr i = natToStr i.toNat := by rw [intToStr, if_neg hi]
    obtain ⟨c, cs, hcs⟩ := List.exists_cons_of_ne_nil (natToStr_ne_nil i.toNat)
    have hc : 48 ≤ c.toNat ∧ c.toNat ≤ 57 :=
      natToStr_digits i.toNat c (by rw [hcs]; exact List.mem_cons_self c cs)
    have hp : ¬ (c = '+') := by
      intro hcc
      rw [hcc] at hc
      exact absurd hc.1 (by decide)
    have hm : ¬ (c = '-') := by
      intro hcc
      rw [hcc] at hc
      exact absurd hc.1 (by decide)
    rw [hrw, hcs]
    have heq : parseI64 (c :: cs) =
        if c = '+' then (parseDigits cs).bind i64OfPos
        else if c = '-' then (parseDigits cs).bind i64OfNeg
        else (parseDigits (c :: cs)).bind i64OfPos := rfl
    rw [heq, if_neg hp, if_neg hm, ← hcs, parseDigits_natToStr]
    have hb : i.toNat ≤ i64MaxNat := by
      simp only [i64MaxNat]
      omega
    have hval : i64OfPos i.toNat = some ((i.toNat : Nat) : Int) := by
      rw [i64OfPos, if_pos hb]
    rw [Option.some_bind, hval]
    simp only [Option.some.injEq]
    omega

/-! ### Frontmatter map lemmas -/

theorem lookupFm_insertFm_self (m : FmMap) (k : Str) (v : FmValue) :
    lookupFm (insertFm m k v) k = some v := by
  unfold lookupFm insertFm
  have hnone : (m.filter (fun e => decide (¬ (e.1 = k)))).find?
      (fun e => decide (e.1 = k)) = none := by
    rw [List.find?_eq_none]
    intro x hx
    have hx2 := (List.mem_filter.mp hx).2
    simp only [decide_not, Bool.not_eq_eq_eq_not, Bool.not_true, decide_eq_false_iff_not] at hx2
    simp [hx2]
  rw [List.find?_append, hnone, Option.none_or, List.find?_cons_of_pos _ (by simp)]
  rfl

theorem find?_filter_ne_aux (m : FmMap) (k k' : Str) (h : ¬ (k' = k)) :
    (m.filter (fun e => decide (¬ (e.1 = k)))).find? (fun e => decide (e.1 = k')) =
    m.find? (fun e => decide (e.1 = k')) := by
  induction m with
  | nil => rfl
  | cons e m ih =>
    by_cases he : e.1 = k
    · have he' : ¬ (e.1 = k') := by
        rw [he]
        intro hh
        exact h hh.symm
      rw [List.filter_cons, if_neg (by simp [he]), List.find?_cons_of_neg _ (by simp [he'])]
      exact ih
    · rw [List.filter_cons, if_pos (by simp [he]), List.find?_cons, List.find?_cons]
      cases hp : decide (e.1 = k') with
      | false => exact ih
      | true => rfl

theorem lookupFm_insertFm_ne (m : FmMap) (k k' : Str) (v : FmValue) (h : ¬ (k' = k)) :
    lookupFm (insertFm m k v) k' = lookupFm m k' := by
  unfold lookupFm insertFm
  rw [List.find?_append, find?_filter_ne_aux m k k' h]
  cases hf : m.find? (fun e => decide (e.1 = k'))
  · rw [Option.none_or, List.find?_cons_of_neg _ (by simp; intro hh; exact h hh.symm)]
    rfl
  · rfl

/-! ### Sorting lemmas -/

theorem insertDesc_perm {α : Type} (le : α → α → Bool) (x : α) :
    ∀ (l : List α), (insertDesc le x l).Perm (x :: l)
  | [] => List.Perm.refl _
  | y :: ys => by
    unfold insertDesc
    by_cases h : le x y
    · rw [if_pos h]
    · rw [if_neg h]
      exact ((insertDesc_perm le x ys).cons y).trans (List.Perm.swap x y ys)

theorem sortByLe_perm {α : Type} (le : α → α → Bool) :
    ∀ (l : List α), (sortByLe le l).Perm l
  | [] => List.Perm.refl _
  | a :: l => by
    have hfold : sortByLe le (a :: l) = insertDesc le a (sortByLe le l) := rfl
    rw [hfold]
    exact (insertDesc_perm le a (sortByLe le l)).trans ((sortByLe_perm le l).cons a)

theorem insertDesc_sorted {α : Type} (le : α → α → Bool)
    (htot : ∀ a b, le a b = false → le b a = true)
    (htrans : ∀ a b c, le a b = true → le b c = true → le a c = true)
    (x : α) : ∀ (l : List α), l.Pairwise (fun a b => le a b = true) →
      (insertDesc le x l).Pairwise (fun a b => le a b = true)
  | [], _ => by simp [insertDesc]
  | y :: ys, hp => by
    rcases List.pairwise_cons.mp hp with ⟨hy, hys⟩
    unfold insertDesc
    by_cases h : le x y
    · rw [if_pos h]
      refine List.pairwise_cons.mpr ⟨?_, hp⟩
      intro z hz
      rcases List.mem_cons.mp hz with hzy | hz
      · rw [hzy]
        exact h
      · exact htrans x y z h (hy z hz)
    · rw [if_neg h]
      refine List.pairwise_cons.mpr
        ⟨?_, insertDesc_sorted le htot htrans x ys hys⟩
      intro z hz
      have hz2 : z ∈ x :: ys := (insertDesc_perm le x ys).mem_iff.mp hz
      rcases List.mem_cons.mp hz2 with hzx | hz2
      · rw [hzx]
        exact htot x y (by simpa using h)
      · exact hy z hz2

theorem sortByLe_sorted {α : Type} (le : α → α → Bool)
    (htot : ∀ a b, le a b = false → le b a = true)
    (htrans : ∀ a b c, le a b = true → le b c = true → le a c = true) :
    ∀ (l : List α), (sortByLe le l).Pairwise (fun a b => le a b = true)
  | [] => by simp [sortByLe]
  | a :: l => by
    have hfold : sortByLe le (a :: l) = insertDesc le a (sortByLe le l) := rfl
    rw [hfold]
    exact insertDesc_sorted le htot htrans a (sortByLe le l)
      (sortByLe_sorted le htot htrans l)

theorem pairwise_combine {α : Type} {R S : α → α → Prop} :
    ∀ {l : List α}, l.Pairwise R → l.Pairwise S → l.Pairwise (fun a b => R a b ∧ S a b) := by
  intro l h1 h2
  induction h1 with
  | nil => exact List.Pairwise.nil
  | cons hr _ ih =>
    cases h2 with
    | cons hs ht => exact List.Pairwise.cons (fun b hb => ⟨hr b hb, hs b hb⟩) (ih ht)

theorem sortByLe_strict {α : Type} (m : α → Int) (l : List α)
    (hne : l.Pairwise (fun a b => ¬ (m a = m b))) :
    (sortByLe (fun a b => decide (m b ≤ m a)) l).Pairwise (fun a b => m b < m a) := by
  have htot : ∀ a b : α, (decide (m b ≤ m a)) = false → decide (m a ≤ m b) = true := by
    intro a b h
    simp only [decide_eq_false_iff_not] at h
    simp only [decide_eq_true_eq]
    omega
  have htrans : ∀ a b c : α, (decide (m b ≤ m a)) = true → (decide (m c ≤ m b)) = true →
      decide (m c ≤ m a) = true := by
    intro a b c hab hbc
    simp only [decide_eq_true_eq] at hab hbc ⊢
    omega
  have hs := sortByLe_sorted _ htot htrans l
  have hperm := sortByLe_perm (fun a b => decide (m b ≤ m a)) l
  have hne' := (List.Perm.pairwise_iff
    (fun {x y} (hab : ¬ (m x = m y)) (hh : m y = m x) => hab hh.symm) hperm).mpr hne
  refine (pairwise_combine hs hne').imp ?_
  intro a b hab
  rcases hab with ⟨hle, hnee⟩
  simp only [decide_eq_true_eq] at hle
  omega

/-! ### Filesystem lemmas -/

theorem ensureDir_files (fs : Fs) (p : FsPath) : (ensureDir fs p).files = fs.files := by
  unfold ensureDir
  by_cases h : pathExists fs p
  · rw [if_pos h]
  · rw [if_neg h]

theorem pathExists_ensureDir_mono (fs : Fs) (p q : FsPath) (h : pathExists fs q = true) :
    pathExists (ensureDir fs p) q = true := by
  unfold ensureDir
  by_cases hp : pathExists fs p
  · rw [if_pos hp]
    exact h
  · rw [if_neg hp]
    unfold pathExists fsFilePaths at h ⊢
    simp only [Bool.or_eq_true, decide_eq_true_eq] at h ⊢
    rcases h with h1 | h1
    · exact Or.inl (by simpa using h1)
    · refine Or.inr ?_
      simp only [List.mem_append]
      exact Or.inl h1

theorem ensureDir_of_exists (fs : Fs) (p : FsPath) (h : pathExists fs p = true) :
    ensureDir fs p = fs := by
  unfold ensureDir
  rw [if_pos h]

theorem lookupFile_writeFile_self (fs : Fs) (p : FsPath) (c : Str) :
    lookupFile (writeFile fs p c) p = some c := by
  unfold lookupFile writeFile
  rw [List.find?_cons_of_pos _ (by simp)]
  rfl

/-! ### Evaluation of `parse_frontmatter` on the file `create_document` writes -/

theorem parseFrontmatter_eval (X : Str) (p : Nat) (hf : findSub fmClose X = some p) :
    parseFrontmatter (fmOpen ++ X) =
      ((rustLines (X.take p)).foldl processFmLine [], (fmOpen ++ X).drop (p + 9)) := by
  unfold parseFrontmatter
  rw [if_pos (isPrefixOf_append_self fmOpen X)]
  have hdrop : (fmOpen ++ X).drop 4 = X := rfl
  rw [hdrop, hf]

theorem findSub_fmClose_line (A : Str) (hA : '\n' ∉ A) (rest : Str) :
    findSub fmClose (A ++ rest) = (findSub fmClose rest).map (· + A.length) := by
  have hfm : fmClose = '\n' :: ['-', '-', '-', '\n'] := rfl
  rw [hfm]
  exact findSub_skip '\n' ['-', '-', '-', '\n'] A rest
    (fun c hc hh => hA (hh ▸ hc))

theorem findSub_fmClose_assembled (A1 A2 A3 tail : Str)
    (h1 : '\n' ∉ A1) (h2 : '\n' ∉ A2) (h3 : '\n' ∉ A3)
    (hA2 : ∃ r, A2 = 't' :: r) (hA3 : ∃ r, A3 = 'c' :: r) :
    findSub fmClose (A1 ++ '\n' :: (A2 ++ '\n' :: (A3 ++ (fmClose ++ tail)))) =
      some (A1.length + A2.length + A3.length + 2) := by
  obtain ⟨r2, hr2⟩ := hA2
  obtain ⟨r3, hr3⟩ := hA3
  have step3 : findSub fmClose (A3 ++ (fmClose ++ tail)) = some A3.length := by
    rw [findSub_fmClose_line A3 h3,
      findSub_pos fmClose (fmClose ++ tail) (isPrefixOf_append_self fmClose tail)]
    simp
  have hnp3 : fmClose.isPrefixOf ('\n' :: (A3 ++ (fmClose ++ tail))) = false := by
    rw [hr3]
    simp [fmClose, List.isPrefixOf]
  have step2b : findSub fmClose ('\n' :: (A3 ++ (fmClose ++ tail))) =
      some (A3.length + 1) := by
    rw [findSub_cons_neg _ _ _ hnp3, step3]
    rfl
  have step2a : findSub fmClose (A2 ++ '\n' :: (A3 ++ (fmClose ++ tail))) =
      some (A3.length + 1 + A2.length) := by
    rw [findSub_fmClose_line A2 h2, step2b]
    rfl
  have hnp2 : fmClose.isPrefixOf ('\n' :: (A2 ++ '\n' :: (A3 ++ (fmClose ++ tail)))) = false := by
    rw [hr2]
    simp [fmClose, List.isPrefixOf]
  have step1b : findSub fmClose ('\n' :: (A2 ++ '\n' :: (A3 ++ (fmClose ++ tail)))) =
      some (A3.length + 1 + A2.length + 1) := by
    rw [findSub_cons_neg _ _ _ hnp2, step2a]
    rfl
  rw [findSub_fmClose_line A1 h1, step1b]
  show some (A3.length + 1 + A2.length + 1 + A1.length) = _
  congr 1
  omega

theorem rustLines_three (A1 A2 A3 : Str)
    (h1 : '\n' ∉ A1) (h2 : '\n' ∉ A2) (h3 : '\n' ∉ A3)
    (hr1 : '\r' ∉ A1) (hr2 : '\r' ∉ A2) (hA3 : A3 ≠ []) :
    rustLines (A1 ++ '\n' :: (A2 ++ '\n' :: A3)) = [A1, A2, A3] := by
  unfold rustLines
  rw [rustLinesAux_newline A1 h1 [] _, List.nil_append, stripCR_of_not_mem A1 hr1,
    rustLinesAux_newline A2 h2 [] _, List.nil_append, stripCR_of_not_mem A2 hr2,
    rustLinesAux_last A3 h3 [], List.nil_append, if_neg hA3]

theorem rustTrim_cons_space (l : Str) : rustTrim (' ' :: l) = rustTrim l :=
  rustTrim_cons_ws ' ' l (by decide)

theorem processFmLine_eval (m : FmMap) (line key v : Str)
    (hsplit : rustSplitOnce ':' line = some (key, v)) :
    processFmLine m line = insertFm m (rustTrim key) (intOrStr (rustTrim v)) := by
  unfold processFmLine
  rw [hsplit]

theorem splitOnce_litIdColon (docId : Str) :
    rustSplitOnce ':' (litIdColon ++ docId) = some (chId, ' ' :: docId) := rfl

theorem splitOnce_litTitleColon (title : Str) :
    rustSplitOnce ':' (litTitleColon ++ title) = some (chTitle, ' ' :: title) := rfl

theorem splitOnce_litCreatedColon (s : Str) :
    rustSplitOnce ':' (litCreatedColon ++ s) = some (chCreated, ' ' :: s) := rfl

theorem parseFrontmatter_createFileContent (docId title : Str) (now : Int)
    (hn1 : '\n' ∉ docId) (hr1 : '\r' ∉ docId)
    (hn2 : '\n' ∉ title) (hr2 : '\r' ∉ title) :
    parseFrontmatter (createFileContent docId title now) =
      (insertFm (insertFm (insertFm [] chId (intOrStr (rustTrim docId)))
          chTitle (intOrStr (rustTrim title)))
        chCreated (intOrStr (intToStr now)),
       ['\n'] ++ headingMark ++ title ++ ['\n', '\n']) := by
  set A1 := litIdColon ++ docId with hA1def
  set A2 := litTitleColon ++ title with hA2def
  set A3 := litCreatedColon ++ intToStr now with hA3def
  set tail := ['\n'] ++ headingMark ++ title ++ ['\n', '\n'] with htaildef
  have hna1 : '\n' ∉ A1 := by
    intro hm
    rcases List.mem_append.mp hm with hm | hm
    · exact absurd hm (by decide)
    · exact hn1 hm
  have hna2 : '\n' ∉ A2 := by
    intro hm
    rcases List.mem_append.mp hm with hm | hm
    · exact absurd hm (by decide)
    · exact hn2 hm
  have hna3 : '\n' ∉ A3 := by
    intro hm
    rcases List.mem_append.mp hm with hm | hm
    · exact absurd hm (by decide)
    · exact intToStr_no_nl now hm
  have hra1 : '\r' ∉ A1 := by
    intro hm
    rcases List.mem_append.mp hm with hm | hm
    · exact absurd hm (by decide)
    · exact hr1 hm
  have hra2 : '\r' ∉ A2 := by
    intro hm
    rcases List.mem_append.mp hm with hm | hm
    · exact absurd hm (by decide)
    · exact hr2 hm
  have hassemble : createFileContent docId title now =
      fmOpen ++ (A1 ++ '\n' :: (A2 ++ '\n' :: (A3 ++ (fmClose ++ tail)))) := by
    rw [createFileContent, hA1def, hA2def, hA3def, htaildef]
    simp [List.append_assoc]
  set X := A1 ++ '\n' :: (A2 ++ '\n' :: (A3 ++ (fmClose ++ tail))) with hXdef
  have hfind : findSub fmClose X = some (A1.length + A2.length + A3.length + 2) :=
    findSub_fmClose_assembled A1 A2 A3 tail hna1 hna2 hna3
      ⟨['i', 't', 'l', 'e', ':', ' '] ++ title, by rw [hA2def]; rfl⟩
      ⟨['r', 'e', 'a', 't', 'e', 'd', ':', ' '] ++ intToStr now, by rw [hA3def]; rfl⟩
  rw [hassemble, parseFrontmatter_eval X _ hfind]
  have hXsplit : X = (A1 ++ '\n' :: (A2 ++ '\n' :: A3)) ++ (fmClose ++ tail) := by
    rw [hXdef]
    simp [List.append_assoc]
  have hlen : (A1 ++ '\n' :: (A2 ++ '\n' :: A3)).length =
      A1.length + A2.length + A3.length + 2 := by
    simp [List.length_append]
    omega
  have htake : X.take (A1.length + A2.length + A3.length + 2) =
      A1 ++ '\n' :: (A2 ++ '\n' :: A3) := by
    rw [hXsplit]
    exact List.take_left' hlen
  have hdrop : (fmOpen ++ X).drop (A1.length + A2.length + A3.length + 2 + 9) = tail := by
    have hshape : fmOpen ++ X = (fmOpen ++ ((A1 ++ '\n' :: (A2 ++ '\n' :: A3)) ++ fmClose)) ++ tail := by
      rw [hXsplit]
      simp [List.append_assoc]
    rw [hshape]
    apply List.drop_left'
    simp only [List.length_append, hlen, fmOpen, fmClose, List.length_cons, List.length_nil]
    omega
  rw [htake, hdrop]
  have hA3ne : A3 ≠ [] := by
    rw [hA3def]
    simp [litCreatedColon]
  rw [rustLines_three A1 A2 A3 hna1 hna2 hna3 hra1 hra2 hA3ne]
  have hkId : rustTrim chId = chId := by decide
  have hkTitle : rustTrim chTitle = chTitle := by decide
  have hkCreated : rustTrim chCreated = chCreated := by decide
  have hl1 : ∀ m : FmMap, processFmLine m A1 = insertFm m chId (intOrStr (rustTrim docId)) := by
    intro m
    rw [hA1def, processFmLine_eval m _ chId (' ' :: docId) (splitOnce_litIdColon docId),
      rustTrim_cons_space, hkId]
  have hl2 : ∀ m : FmMap, processFmLine m A2 = insertFm m chTitle (intOrStr (rustTrim title)) := by
    intro m
    rw [hA2def, processFmLine_eval m _ chTitle (' ' :: title) (splitOnce_litTitleColon title),
      rustTrim_cons_space, hkTitle]
  have hl3 : ∀ m : FmMap, processFmLine m A3 =
      insertFm m chCreated (intOrStr (intToStr now)) := by
    intro m
    rw [hA3def, processFmLine_eval m _ chCreated (' ' :: intToStr now)
        (splitOnce_litCreatedColon (intToStr now)),
      rustTrim_cons_space, hkCreated,
      rustTrim_no_ws (intToStr now) (fun c hc => intToStr_no_ws now c hc)]
  have hfold : List.foldl processFmLine ([] : FmMap) [A1, A2, A3] =
      processFmLine (processFmLine (processFmLine [] A1) A2) A3 := rfl
  rw [hfold, hl1, hl2, hl3]

/-! ### Claims -/

/-- C1, amended: the split only fires when the content starts with the four
characters `---\n` and the five-character sequence `\n---\n` occurs after
offset 4; the frontmatter is then everything strictly between offset 4 and
the first such occurrence and the body is everything after it.  In every
other case — including a closing `---` line that is the last line of the
file with no trailing newline, or a closing `---` line immediately after
the opening one — there is no frontmatter and the body is the whole input
unchanged. -/
theorem c1_frontmatter_split (content : Str) :
    (fmOpen.isPrefixOf content = false → parseFrontmatter content = ([], content)) ∧
    (findSub fmClose (content.drop 4) = none → parseFrontmatter content = ([], content)) ∧
    (∀ p : Nat, fmOpen.isPrefixOf content = true →
      findSub fmClose (content.drop 4) = some p →
      parseFrontmatter content =
        ((rustLines ((content.drop 4).take p)).foldl processFmLine [],
         content.drop (p + 9))) := by
  refine ⟨?_, ?_, ?_⟩
  · intro h
    unfold parseFrontmatter
    rw [if_neg (by simp [h])]
  · intro h
    unfold parseFrontmatter
    by_cases hp : fmOpen.isPrefixOf content
    · rw [if_pos hp, h]
    · rw [if_neg hp]
  · intro p hp hf
    unfold parseFrontmatter
    rw [if_pos hp, hf]

/-- Witness for C1's amended theorem at `"---\na: 1\n---\nB"`. -/
theorem c1_frontmatter_split_witness :
    parseFrontmatter ['-', '-', '-', '\n', 'a', ':', ' ', '1', '\n', '-', '-', '-', '\n', 'B'] =
      ((rustLines (((['-', '-', '-', '\n', 'a', ':', ' ', '1', '\n', '-', '-', '-', '\n', 'B'] :
          Str).drop 4).take 4)).foldl processFmLine [],
       (['-', '-', '-', '\n', 'a', ':', ' ', '1', '\n', '-', '-', '-', '\n', 'B'] : Str).drop
         (4 + 9)) :=
  (c1_frontmatter_split _).2.2 4 (by decide) (by decide)

/-- C1 counterexample: `"---\na: 1\n---"` begins with a line of exactly
`---` and a later line of exactly `---` occurs, yet the code returns no
frontmatter entries and the body is the entire input (the claim requires
the frontmatter to be the line `a: 1` and the body to be empty). -/
theorem c1_counterexample :
    (rustLines ['-', '-', '-', '\n', 'a', ':', ' ', '1', '\n', '-', '-', '-']).head? =
      some ['-', '-', '-'] ∧
    ['-', '-', '-'] ∈ (rustLines ['-', '-', '-', '\n', 'a', ':', ' ', '1', '\n', '-', '-', '-']).drop 1 ∧
    parseFrontmatter ['-', '-', '-', '\n', 'a', ':', ' ', '1', '\n', '-', '-', '-'] =
      ([], ['-', '-', '-', '\n', 'a', ':', ' ', '1', '\n', '-', '-', '-']) ∧
    (['-', '-', '-', '\n', 'a', ':', ' ', '1', '\n', '-', '-', '-'] : Str) ≠ [] := by
  decide

/-- C2: inside the frontmatter block each line is processed independently
and totally: a line containing `:` inserts the entry whose key is the text
before the first `:` trimmed and whose value is the text after it trimmed —
stored as an integer exactly when it parses as `i64`, else as the trimmed
string — and a line with no `:` is ignored. -/
theorem c2_frontmatter_line (m : FmMap) (line : Str) :
    ((':' ∈ line) → processFmLine m line =
      insertFm m (rustTrim (line.takeWhile (fun c => decide (¬ (c = ':')))))
        (intOrStr (rustTrim (line.drop
          ((line.takeWhile (fun c => decide (¬ (c = ':')))).length + 1))))) ∧
    ((':' ∉ line) → processFmLine m line = m) ∧
    (∀ v : Str, ∀ n : Int, parseI64 v = some n → intOrStr v = .int n) ∧
    (∀ v : Str, parseI64 v = none → intOrStr v = .str v) := by
  refine ⟨?_, ?_, ?_, ?_⟩
  · intro h
    unfold processFmLine
    rw [rustSplitOnce_of_mem ':' line h]
  · intro h
    unfold processFmLine
    rw [rustSplitOnce_of_not_mem ':' line h]
  · intro v n h
    unfold intOrStr
    rw [h]
  · intro v h
    unfold intOrStr
    rw [h]

/-- Witness for C2 at the line `"wc: 42"`. -/
theorem c2_frontmatter_line_witness :
    processFmLine [] ['w', 'c', ':', ' ', '4', '2'] =
      insertFm [] (rustTrim ((['w', 'c', ':', ' ', '4', '2'] : Str).takeWhile
          (fun c => decide (¬ (c = ':')))))
        (intOrStr (rustTrim ((['w', 'c', ':', ' ', '4', '2'] : Str).drop
          (((['w', 'c', ':', ' ', '4', '2'] : Str).takeWhile
            (fun c => decide (¬ (c = ':')))).length + 1)))) :=
  (c2_frontmatter_line [] _).1 (by decide)

/-- C3, amended: the title fallback chain uses the frontmatter `title`
value only when it is stored as a string (a `title` whose value parses as
an integer is skipped, because `as_str` returns nothing for a number);
otherwise the first body line starting with `"# "` with the leading
marker(s) stripped and trimmed; otherwise the file stem; otherwise
`"Untitled"`. -/
theorem c3_title_chain (docPath : FsPath) (content : Str) (stem : Option Str)
    (fsC fsM : Option Int) :
    (∀ s : Str, fmGetStr (parseFrontmatter content).1 chTitle = some s →
      (readDocument docPath content stem fsC fsM).title = s) ∧
    (fmGetStr (parseFrontmatter content).1 chTitle = none →
      ((∀ l : Str, (rustLines (parseFrontmatter content).2).find?
          (fun l => headingMark.isPrefixOf l) = some l →
        (readDocument docPath content stem fsC fsM).title =
          rustTrim (trimStartMatchesHashSpace l)) ∧
       ((rustLines (parseFrontmatter content).2).find?
          (fun l => headingMark.isPrefixOf l) = none →
        (readDocument docPath content stem fsC fsM).title = stem.getD chUntitled))) := by
  have htitle : (readDocument docPath content stem fsC fsM).title =
      deriveTitle (parseFrontmatter content).1 (parseFrontmatter content).2 stem := rfl
  refine ⟨?_, ?_⟩
  · intro s hs
    rw [htitle]
    unfold deriveTitle
    rw [hs]
  · intro hnone
    refine ⟨?_, ?_⟩
    · intro l hl
      rw [htitle]
      unfold deriveTitle
      rw [hnone, hl]
    · intro hl
      rw [htitle]
      unfold deriveTitle
      rw [hnone, hl]

/-- Witness for C3's amended theorem: a string-valued frontmatter title is
returned verbatim. -/
theorem c3_title_chain_witness :
    (readDocument [] ['-', '-', '-', '\n', 't', 'i', 't', 'l', 'e', ':', ' ', 'h', 'i',
        '\n', '-', '-', '-', '\n'] none none none).title = ['h', 'i'] :=
  (c3_title_chain [] _ none none none).1 ['h', 'i'] (by decide)

/-- C3 counterexample: with content `"---\ntitle: 42\n---\nBody"` and file
stem `doc`, the frontmatter contains a `title` key (stored as the number
42), yet the returned title is `doc` — the frontmatter value is not
returned, contradicting the claim's "whenever the frontmatter contains a
`title` key, the returned title equals that frontmatter value". -/
theorem c3_counterexample :
    lookupFm (parseFrontmatter ['-', '-', '-', '\n', 't', 'i', 't', 'l', 'e', ':', ' ',
        '4', '2', '\n', '-', '-', '-', '\n', 'B', 'o', 'd', 'y']).1 chTitle =
      some (FmValue.int 42) ∧
    (readDocument [['d', 'o', 'c']] ['-', '-', '-', '\n', 't', 'i', 't', 'l', 'e', ':', ' ',
        '4', '2', '\n', '-', '-', '-', '\n', 'B', 'o', 'd', 'y']
      (some ['d', 'o', 'c']) none none).title = ['d', 'o', 'c'] ∧
    (['d', 'o', 'c'] : Str) ≠ ['4', '2'] := by
  decide

/-- C7: filename sanitization maps each of the nine characters
`/ \ : * ? " < > |` to `-` position by position, leaves every other
character unchanged, and then trims surrounding whitespace; in particular
`"My Novel: Chapter 1"` becomes `"My Novel- Chapter 1"` and `"Test/File"`
becomes `"Test-File"`. -/
theorem c7_sanitize_filename (name : Str) :
    sanitizeFilename name = rustTrim (name.map sanitizeChar) ∧
    (name.map sanitizeChar).length = name.length ∧
    (∀ i : Nat, (name.map sanitizeChar)[i]? =
      (name[i]?).map (fun c => if c ∈ invalidFileChars then '-' else c)) ∧
    sanitizeFilename ['M', 'y', ' ', 'N', 'o', 'v', 'e', 'l', ':', ' ',
        'C', 'h', 'a', 'p', 't', 'e', 'r', ' ', '1'] =
      ['M', 'y', ' ', 'N', 'o', 'v', 'e', 'l', '-', ' ',
        'C', 'h', 'a', 'p', 't', 'e', 'r', ' ', '1'] ∧
    sanitizeFilename ['T', 'e', 's', 't', '/', 'F', 'i', 'l', 'e'] =
      ['T', 'e', 's', 't', '-', 'F', 'i', 'l', 'e'] := by
  refine ⟨rfl, List.length_map name sanitizeChar, ?_, by decide, by decide⟩
  intro i
  rw [List.getElem?_map]
  rfl

/-- C8: listing a nonexistent directory returns the empty list and never
an error, whatever the (never-consulted) directory enumeration would have
produced — including an I/O error. -/
theorem c8_list_nonexistent_dir (readDir : Except IoErr (List (Option Document))) :
    listDocumentsInDir false readDir = .ok [] := rfl

/-- C4: a successful `create_document` returns a record with empty
`content`, `wordCount` 0 and `createdAt = modifiedAt`, while the file it
writes is nonempty and consists of a frontmatter block binding `id` to the
generated id, `title` to the title and `created` to the creation timestamp
(as a number), followed by a blank line, a level-1 heading equal to the
title, and a trailing blank line.  The id and title are assumed free of
line breaks (an id is a uuid; a title with an embedded newline would
corrupt the written frontmatter layout itself). -/
theorem c4_create_document (fs : Fs) (projectPath : FsPath) (title category : Str)
    (subcategory : Option Str) (docId : Str) (now : Int)
    (hn1 : '\n' ∉ docId) (hr1 : '\r' ∉ docId)
    (hn2 : '\n' ∉ title) (hr2 : '\r' ∉ title)
    (hlo : -(2 ^ 63) ≤ now) (hhi : now < 2 ^ 63)
    (hfree : pathExists (ensureDir fs (dirPathOf projectPath category subcategory))
      (docPathOf projectPath title category subcategory) = false) :
    (createDocument fs projectPath title category subcategory docId now).1 =
      .ok (createdRecord docId title (docPathOf projectPath title category subcategory) now) ∧
    (createdRecord docId title (docPathOf projectPath title category subcategory) now).content
      = [] ∧
    (createdRecord docId title (docPathOf projectPath title category subcategory) now).wordCount
      = 0 ∧
    (createdRecord docId title (docPathOf projectPath title category subcategory) now).createdAt
      = (createdRecord docId title (docPathOf projectPath title category subcategory)
          now).modifiedAt ∧
    lookupFile (createDocument fs projectPath title category subcategory docId now).2
      (docPathOf projectPath title category subcategory) =
      some (createFileContent docId title now) ∧
    createFileContent docId title now ≠ [] ∧
    lookupFm (parseFrontmatter (createFileContent docId title now)).1 chId =
      some (intOrStr (rustTrim docId)) ∧
    lookupFm (parseFrontmatter (createFileContent docId title now)).1 chTitle =
      some (intOrStr (rustTrim title)) ∧
    lookupFm (parseFrontmatter (createFileContent docId title now)).1 chCreated =
      some (FmValue.int now) ∧
    rustLines (parseFrontmatter (createFileContent docId title now)).2 =
      [[], headingMark ++ title, []] := by
  have hcd : createDocument fs projectPath title category subcategory docId now =
      if pathExists (ensureDir fs (dirPathOf projectPath category subcategory))
          (docPathOf projectPath title category subcategory) then
        (.error .alreadyExists, ensureDir fs (dirPathOf projectPath category subcategory))
      else
        (.ok (createdRecord docId title (docPathOf projectPath title category subcategory) now),
         writeFile (ensureDir fs (dirPathOf projectPath category subcategory))
           (docPathOf projectPath title category subcategory)
           (createFileContent docId title now)) := rfl
  rw [hcd, if_neg (by simp [hfree])]
  have hpm := parseFrontmatter_createFileContent docId title now hn1 hr1 hn2 hr2
  have hint : intOrStr (intToStr now) = FmValue.int now := by
    unfold intOrStr
    rw [parseI64_intToStr now hlo hhi]
  have hIdNeTitle : ¬ (chId = chTitle) := by decide
  have hIdNeCreated : ¬ (chId = chCreated) := by decide
  have hTitleNeCreated : ¬ (chTitle = chCreated) := by decide
  have hL2nl : '\n' ∉ headingMark ++ title := by
    intro hm
    rcases List.mem_append.mp hm with hm | hm
    · exact absurd hm (by decide)
    · exact hn2 hm
  have hL2cr : '\r' ∉ headingMark ++ title := by
    intro hm
    rcases List.mem_append.mp hm with hm | hm
    · exact absurd hm (by decide)
    · exact hr2 hm
  have hlines : rustLines (['\n'] ++ headingMark ++ title ++ ['\n', '\n']) =
      [[], headingMark ++ title, []] := by
    have e1 : (['\n'] ++ headingMark ++ title ++ ['\n', '\n'] : Str) =
        ([] : Str) ++ '\n' :: ((headingMark ++ title) ++ '\n' :: (([] : Str) ++ '\n' ::
          ([] : Str))) := by
      simp
    rw [rustLines, e1, rustLinesAux_newline [] (by simp) _ _, List.nil_append,
      rustLinesAux_newline (headingMark ++ title) hL2nl _ _, List.nil_append,
      rustLinesAux_newline [] (by simp) _ _, List.nil_append]
    rw [stripCR_of_not_mem _ hL2cr]
    rfl
  refine ⟨rfl, rfl, rfl, rfl, lookupFile_writeFile_self _ _ _,
    by simp [createFileContent, fmOpen], ?_, ?_, ?_, ?_⟩
  · rw [hpm]
    rw [lookupFm_insertFm_ne _ _ _ _ hIdNeCreated, lookupFm_insertFm_ne _ _ _ _ hIdNeTitle,
      lookupFm_insertFm_self]
  · rw [hpm]
    rw [lookupFm_insertFm_ne _ _ _ _ hTitleNeCreated, lookupFm_insertFm_self]
  · rw [hpm]
    rw [lookupFm_insertFm_self, hint]
  · rw [hpm]
    exact hlines

/-- Witness for C4 on an empty filesystem, project `p`, title `T`,
category `N`, id `u`, timestamp 7. -/
theorem c4_create_document_witness :
    lookupFm (parseFrontmatter (createFileContent ['u'] ['T'] 7)).1 chCreated =
      some (FmValue.int 7) :=
  (c4_create_document ⟨[], []⟩ [['p']] ['T'] ['N'] none ['u'] 7
    (by decide) (by decide) (by decide) (by decide) (by decide) (by decide)
    (by decide)).2.2.2.2.2.2.2.2.1

/-- C5: when the target file path already exists, `create_document` fails
with the already-exists error and the set of files — in particular the
existing file's content, and the absence of any new (suffixed or deduped)
file — is completely unchanged. -/
theorem c5_already_exists (fs : Fs) (projectPath : FsPath) (title category : Str)
    (subcategory : Option Str) (docId : Str) (now : Int)
    (h : pathExists fs (docPathOf projectPath title category subcategory) = true) :
    (createDocument fs projectPath title category subcategory docId now).1 =
      .error .alreadyExists ∧
    (createDocument fs projectPath title category subcategory docId now).2.files = fs.files := by
  have hex : pathExists (ensureDir fs (dirPathOf projectPath category subcategory))
      (docPathOf projectPath title category subcategory) = true :=
    pathExists_ensureDir_mono fs _ _ h
  have hcd : createDocument fs projectPath title category subcategory docId now =
      if pathExists (ensureDir fs (dirPathOf projectPath category subcategory))
          (docPathOf projectPath title category subcategory) then
        (.error .alreadyExists, ensureDir fs (dirPathOf projectPath category subcategory))
      else
        (.ok (createdRecord docId title (docPathOf projectPath title category subcategory) now),
         writeFile (ensureDir fs (dirPathOf projectPath category subcategory))
           (docPathOf projectPath title category subcategory)
           (createFileContent docId title now)) := rfl
  rw [hcd, if_pos hex]
  exact ⟨rfl, ensureDir_files fs _⟩

/-- The filesystem used by the C5 witness: the target file already holds
`old`. -/
def fsC5 : Fs :=
  { files := [([['p'], ['N'], ['T', '.', 'm', 'd']], ['o', 'l', 'd'])]
    dirs := [[['p']], [['p'], ['N']]] }

/-- Witness for C5 at a concrete collision. -/
theorem c5_already_exists_witness :
    (createDocument fsC5 [['p']] ['T'] ['N'] none ['u'] 7).1 = .error .alreadyExists ∧
    (createDocument fsC5 [['p']] ['T'] ['N'] none ['u'] 7).2.files = fsC5.files :=
  c5_already_exists fsC5 [['p']] ['T'] ['N'] none ['u'] 7 (by decide)

/-- C9, amended: `ensure_dir` is indeed called before the collision check,
but on a well-formed filesystem an existing target file implies its parent
directories already exist, so `ensure_dir` is a no-op and a create that
fails with the already-exists error leaves the filesystem state completely
unchanged — no newly created directories are left behind. -/
theorem c9_collision_unchanged (fs : Fs) (projectPath : FsPath) (title category : Str)
    (subcategory : Option Str) (docId : Str) (now : Int)
    (hwf : FsWf fs)
    (h : pathExists fs (docPathOf projectPath title category subcategory) = true) :
    createDocument fs projectPath title category subcategory docId now =
      (.error .alreadyExists, fs) := by
  have hdp : docPathOf projectPath title category subcategory =
      dirPathOf projectPath category subcategory ++ [docFileName title] := rfl
  have hdirlen : 0 < (dirPathOf projectPath category subcategory).length := by
    unfold dirPathOf
    cases subcategory <;> simp
  have hdoclen : (docPathOf projectPath title category subcategory).length =
      (dirPathOf projectPath category subcategory).length + 1 := by
    rw [hdp]
    simp
  have hmem : docPathOf projectPath title category subcategory ∈ fsFilePaths fs ++ fs.dirs := by
    unfold pathExists at h
    simp only [Bool.or_eq_true, decide_eq_true_eq] at h
    rcases h with h1 | h1
    · exact List.mem_append.mpr (Or.inl h1)
    · exact List.mem_append.mpr (Or.inr h1)
  have htake : (docPathOf projectPath title category subcategory).take
      (dirPathOf projectPath category subcategory).length =
      dirPathOf projectPath category subcategory := by
    rw [hdp]
    exact List.take_left _ _
  have hdirs : dirPathOf projectPath category subcategory ∈ fs.dirs := by
    have hh := hwf _ hmem (dirPathOf projectPath category subcategory).length
      (by omega) hdirlen
    rw [htake] at hh
    exact hh
  have hde : pathExists fs (dirPathOf projectPath category subcategory) = true := by
    unfold pathExists
    simp only [Bool.or_eq_true, decide_eq_true_eq]
    exact Or.inr hdirs
  have hens : ensureDir fs (dirPathOf projectPath category subcategory) = fs :=
    ensureDir_of_exists fs _ hde
  have hcd : createDocument fs projectPath title category subcategory docId now =
      if pathExists (ensureDir fs (dirPathOf projectPath category subcategory))
          (docPathOf projectPath title category subcategory) then
        (.error .alreadyExists, ensureDir fs (dirPathOf projectPath category subcategory))
      else
        (.ok (createdRecord docId title (docPathOf projectPath title category subcategory) now),
         writeFile (ensureDir fs (dirPathOf projectPath category subcategory))
           (docPathOf projectPath title category subcategory)
           (createFileContent docId title now)) := rfl
  rw [hcd, hens, if_pos h]

/-- The well-formed filesystem used by the C9 witness and counterexample:
the target `p/N/D/T.md` exists and so do all its parent directories. -/
def fsC9 : Fs :=
  { files := [([['p'], ['N'], ['D'], ['T', '.', 'm', 'd']], ['x'])]
    dirs := [[['p']], [['p'], ['N']], [['p'], ['N'], ['D']]] }

/-- Witness for C9's amended theorem. -/
theorem c9_collision_unchanged_witness :
    createDocument fsC9 [['p']] ['T'] ['N'] (some ['D']) ['u'] 7 =
      (.error .alreadyExists, fsC9) :=
  c9_collision_unchanged fsC9 [['p']] ['T'] ['N'] (some ['D']) ['u'] 7
    (by unfold FsWf; decide) (by decide)

/-- C9 counterexample: at a concrete collision (file `p/N/D/T.md` already
present, all parent directories present — the only way a file can exist),
the failed create returns the filesystem state exactly as it was: no
category or subcategory directory is newly created and left behind, so the
state is fully unchanged on the already-exists error, contrary to the
claim. -/
theorem c9_counterexample :
    createDocument
      ⟨[([['p'], ['N'], ['D'], ['T', '.', 'm', 'd']], ['x'])],
       [[['p']], [['p'], ['N']], [['p'], ['N'], ['D']]]⟩
      [['p']] ['T'] ['N'] (some ['D']) ['u'] 7 =
      (.error .alreadyExists,
       ⟨[([['p'], ['N'], ['D'], ['T', '.', 'm', 'd']], ['x'])],
        [[['p']], [['p'], ['N']], [['p'], ['N'], ['D']]]⟩) := by
  decide

/-- C10: `parse_frontmatter` is total and its slice offsets are safe: when
the opening delimiter is present and the closing delimiter is found at
`p`, all three offsets (4, `p + 4`, `p + 9`) lie within the input, the
input decomposes exactly as opening delimiter ++ frontmatter slice ++
closing delimiter ++ body slice (so every cut sits on an ASCII delimiter
boundary), and the returned body is the in-bounds suffix. -/
theorem c10_parse_frontmatter_safe (content : Str) (p : Nat)
    (hopen : fmOpen.isPrefixOf content = true)
    (hfind : findSub fmClose (content.drop 4) = some p) :
    4 + p + 5 ≤ content.length ∧
    content = fmOpen ++ ((content.drop 4).take p ++ (fmClose ++ content.drop (p + 9))) ∧
    (parseFrontmatter content).2 = content.drop (p + 9) := by
  obtain ⟨t, ht⟩ := (isPrefixOf_exists_append fmOpen content).mp hopen
  have hdrop4 : content.drop 4 = t := by
    rw [← ht]
    rfl
  rw [hdrop4] at hfind
  obtain ⟨hle, hpre⟩ := findSub_some fmClose t p hfind
  obtain ⟨r, hr⟩ := (isPrefixOf_exists_append fmClose (t.drop p)).mp hpre
  have h4 : (fmOpen : Str).length = 4 := rfl
  have h5 : (fmClose : Str).length = 5 := rfl
  have hlen1 : content.length = 4 + t.length := by
    rw [← ht, List.length_append, h4]
  have hlen2 : (t.drop p).length = 5 + r.length := by
    rw [← hr, List.length_append, h5]
  have hlen3 : (t.drop p).length = t.length - p := List.length_drop p t
  have hbound : 4 + p + 5 ≤ content.length := by omega
  have hshape : content = fmOpen ++ (t.take p ++ (fmClose ++ r)) := by
    rw [← ht]
    congr 1
    rw [hr, List.take_append_drop]
  have hgroup : content = (fmOpen ++ t.take p ++ fmClose) ++ r := by
    rw [hshape]
    simp [List.append_assoc]
  have hdropP9 : content.drop (p + 9) = r := by
    rw [hgroup]
    apply List.drop_left'
    have hp' : (t.take p).length = p := by
      rw [List.length_take]
      omega
    rw [List.length_append, List.length_append, h4, h5, hp']
    omega
  refine ⟨hbound, ?_, ?_⟩
  · rw [hdrop4, hdropP9]
    exact hshape
  · unfold parseFrontmatter
    rw [if_pos hopen, hdrop4, hfind]

/-- Witness for C10 at `"---\na: 1\n---\nB"`, where the closing delimiter
is found at offset 4 of the tail. -/
theorem c10_parse_frontmatter_safe_witness :
    (parseFrontmatter ['-', '-', '-', '\n', 'a', ':', ' ', '1', '\n', '-', '-', '-', '\n', 'B']).2 =
      (['-', '-', '-', '\n', 'a', ':', ' ', '1', '\n', '-', '-', '-', '\n', 'B'] : Str).drop
        (4 + 9) :=
  (c10_parse_frontmatter_safe _ 4 (by decide) (by decide)).2.2

/-- C6: on collections whose (kept) items have pairwise distinct
`modifiedAt` values, the lists returned by `list_documents_in_dir`,
`list_all_documents` and `list_projects` are sorted in strictly descending
order of `modifiedAt`. -/
theorem c6_listing_sorted (ds as : List (Option Document)) (ps : List (Option Project))
    (l1 l2 : List Document) (l3 : List Project)
    (hne1 : (ds.filterMap (fun x => x)).Pairwise
      (fun a b => ¬ (a.modifiedAt = b.modifiedAt)))
    (hne2 : (as.filterMap (fun x => x)).Pairwise
      (fun a b => ¬ (a.modifiedAt = b.modifiedAt)))
    (hne3 : (ps.filterMap (fun x => x)).Pairwise
      (fun a b => ¬ (a.modifiedAt = b.modifiedAt)))
    (h1 : listDocumentsInDir true (.ok ds) = .ok l1)
    (h2 : listAllDocuments (.ok as) = .ok l2)
    (h3 : listProjects true (.ok ps) = .ok l3) :
    l1.Pairwise (fun a b => b.modifiedAt < a.modifiedAt) ∧
    l2.Pairwise (fun a b => b.modifiedAt < a.modifiedAt) ∧
    l3.Pairwise (fun a b => b.modifiedAt < a.modifiedAt) := by
  have e1 : listDocumentsInDir true (.ok ds) =
      .ok (sortDocs (ds.filterMap (fun x => x))) := rfl
  have e2 : listAllDocuments (.ok as) = .ok (sortDocs (as.filterMap (fun x => x))) := rfl
  have e3 : listProjects true (.ok ps) = .ok (sortProjects (ps.filterMap (fun x => x))) := rfl
  rw [e1] at h1
  rw [e2] at h2
  rw [e3] at h3
  have h1' := Except.ok.inj h1
  have h2' := Except.ok.inj h2
  have h3' := Except.ok.inj h3
  rw [← h1', ← h2', ← h3']
  exact ⟨sortByLe_strict Document.modifiedAt _ hne1,
    sortByLe_strict Document.modifiedAt _ hne2,
    sortByLe_strict Project.modifiedAt _ hne3⟩

/-- Documents and projects used by the C6 witness. -/
def docC6a : Document :=
  { id := ['a'], projectId := [], path := [], title := ['a'], content := [],
    wordCount := 0, createdAt := 0, modifiedAt := 1, metadata := none }

/-- Second C6 witness document, more recently modified. -/
def docC6b : Document :=
  { id := ['b'], projectId := [], path := [], title := ['b'], content := [],
    wordCount := 0, createdAt := 0, modifiedAt := 5, metadata := none }

/-- First C6 witness project. -/
def projC6a : Project :=
  { id := ['a'], name := ['a'], path := [], createdAt := 0, modifiedAt := 2 }

/-- Second C6 witness project, more recently modified. -/
def projC6b : Project :=
  { id := ['b'], name := ['b'], path := [], createdAt := 0, modifiedAt := 9 }

/-- Witness for C6: two documents modified at 1 and 5 (with a skipped
entry in between) and two projects modified at 2 and 9 come back sorted
descending from all three listing operations. -/
theorem c6_listing_sorted_witness :
    ([docC6b, docC6a] : List Document).Pairwise
      (fun a b => b.modifiedAt < a.modifiedAt) ∧
    ([docC6b, docC6a] : List Document).Pairwise
      (fun a b => b.modifiedAt < a.modifiedAt) ∧
    ([projC6b, projC6a] : List Project).Pairwise
      (fun a b => b.modifiedAt < a.modifiedAt) :=
  c6_listing_sorted [some docC6a, none, some docC6b] [some docC6a, some docC6b]
    [some projC6a, some projC6b] [docC6b, docC6a] [docC6b, docC6a] [projC6b, projC6a]
    (by decide) (by decide) (by decide) (by decide) (by decide) (by decide)
